import Mathlib

/-!
Verification of the job-orchestration client (SourceManager, Revisions) and the
spec-described job engine it polls. Client-side definitions are shallow
embeddings of the React component logic in the repository; the engine itself
(server side) is not part of the repository sources, so its operations are
modelled from the specification and marked as such in their doc comments.
-/

/-- A JavaScript value stored in a tracked-job field that the client writes
either as a number (`progress: 0`) or as a string (`progress: '0/0'`). -/
inductive JSValue where
  | num (n : Int)
  | str (s : String)
deriving DecidableEq, Repr

/-- One entry of the client's `activeJobs` state object in `SourceManager`:
`{ job_id, filename, status, progress, message }`. -/
structure TrackedJob where
  job_id : String
  filename : String
  status : String
  progress : JSValue
  message : String
deriving DecidableEq, Repr

/-- The JSON snapshot the client fetches from `GET /jobs/{jobId}` inside
`checkJobs`: the fields the polling loop inspects and merges. -/
structure JobSnapshot where
  status : String
  progress : Int
  message : String
deriving DecidableEq, Repr

/-- The client's `activeJobs` object, keyed by job id (JS object keys are
strings). -/
def JobMap := String → Option TrackedJob

/-- Removal of one key, as in `delete newState[jobId]` on a copy. -/
def JobMap.erase (m : JobMap) (k : String) : JobMap :=
  fun x => if x = k then none else m x

/-- Insertion of one binding, as in a spread `{ ...m, [k]: v }`. -/
def JobMap.insert (m : JobMap) (k : String) (v : TrackedJob) : JobMap :=
  fun x => if x = k then some v else m x

/-- The empty `activeJobs` object `{}`. -/
def JobMap.empty : JobMap := fun _ => none

/-- The field-wise merge `{ ...prev[jobId], ...data }` performed by
`checkJobs`: the snapshot's fields override the stored entry's. -/
def mergeSnapshot (t : TrackedJob) (d : JobSnapshot) : TrackedJob :=
  { t with status := d.status, progress := JSValue.num d.progress,
           message := d.message }

/-- Merge target when the previous entry is absent, as in
`{ ...undefined, ...data }`: an object holding only the snapshot's fields. -/
def snapshotOnly (d : JobSnapshot) : TrackedJob :=
  ⟨"", "", d.status, JSValue.num d.progress, d.message⟩

/-- The body of the `checkJobs` polling loop in `SourceManager` for a single
tracked job id, given the fetched snapshot `d`. Returns the updated
`activeJobs` object and whether `fetchSources()` was triggered. Mirrors:
`if (data.status === 'completed' || ... 'failed' || ... 'cancelled' ||
... 'not_found' || data.progress === 100) { delete; fetchSources } else
{ merge }`. -/
def checkJobsStep (m : JobMap) (jobId : String) (d : JobSnapshot) :
    JobMap × Bool :=
  if d.status = "completed" ∨ d.status = "failed" ∨ d.status = "cancelled" ∨
      d.status = "not_found" ∨ d.progress = 100 then
    (m.erase jobId, true)
  else
    (m.insert jobId
      (match m jobId with
       | some t => mergeSnapshot t d
       | none => snapshotOnly d), false)

/-- The JSON response of `POST /upload` as `handleUpload` reads it:
`status`, `filename`, and an optional `job_id`. -/
structure UploadResponse where
  status : String
  filename : String
  job_id : Option String
deriving DecidableEq, Repr

/-- The per-file body of `handleUpload` in `SourceManager`: on
`data.status === 'duplicate'` the filename is pushed onto `duplicates`;
otherwise, if `data.job_id` is present, a fresh tracking entry with status
`'pending'` and progress `'0/0'` is installed. -/
def handleUploadStep (jobs : JobMap) (duplicates : List String)
    (r : UploadResponse) : JobMap × List String :=
  if r.status = "duplicate" then
    (jobs, duplicates ++ [r.filename])
  else
    match r.job_id with
    | some jid =>
        (jobs.insert jid ⟨jid, r.filename, "pending", JSValue.str "0/0",
          "En attente..."⟩, duplicates)
    | none => (jobs, duplicates)

/-- `handleCancelJob` in `SourceManager`: after issuing the cancel request it
deletes the job id from `activeJobs` immediately, without consulting the job's
status. -/
def handleCancelJob (m : JobMap) (jobId : String) : JobMap :=
  m.erase jobId

/-- The `newJobsState` object built by `handleRefreshAll` from the response
list `[{job_id, filename}, ...]`: one entry per returned job, status
`'pending'`, progress `0`. -/
def refreshAllNewJobs (resp : List (String × String)) : JobMap :=
  resp.foldl
    (fun acc p =>
      JobMap.insert acc p.1
        ⟨p.1, p.2, "pending", JSValue.num 0, "Actualisation démarrée..."⟩)
    JobMap.empty

/-- The state update `setActiveJobs(prev => ({ ...prev, ...newJobsState }))`
performed by `handleRefreshAll`. -/
def handleRefreshAllInstall (prev : JobMap) (resp : List (String × String)) :
    JobMap :=
  fun k =>
    match refreshAllNewJobs resp k with
    | some v => some v
    | none => prev k

/-- The polling condition of the generation-job effect in `Revisions`:
`generationJob && generationJob.status !== 'completed' && ... !== 'failed' &&
... !== 'cancelled'`. -/
def shouldPollGeneration (generationJob : Option JobSnapshot) : Bool :=
  match generationJob with
  | none => false
  | some j =>
      !(j.status == "completed") && !(j.status == "failed") &&
        !(j.status == "cancelled")

/-- JavaScript `String.prototype.padStart(n, c)`: pad on the left with `c` up
to length `n`. -/
def jsPadStart (s : String) (n : Nat) (c : Char) : String :=
  String.mk (List.replicate (n - s.length) c) ++ s

/-- Embedding of `formatTime` from `SourceManager`: the minutes
`Math.floor(seconds / 60)`, a colon, and the seconds
`(seconds % 60).toString().padStart(2, '0')`. -/
def formatTime (seconds : Nat) : String :=
  Nat.repr (seconds / 60) ++ ":" ++ jsPadStart (Nat.repr (seconds % 60)) 2 '0'

/-- The decimal digit character for `d < 10`. -/
def decimalDigit (d : Nat) : Char :=
  Char.ofNat (48 + d)

/-- Independent rendering of a two-digit decimal field for `m < 100`: the tens
digit followed by the units digit. -/
def twoDigitField (m : Nat) : String :=
  String.mk [decimalDigit (m / 10), decimalDigit (m % 10)]

/-- The claim's description of `formatTime`: minutes in decimal, a colon, and
the seconds rendered as exactly two decimal digits. -/
def formatTimeSpec (seconds : Nat) : String :=
  Nat.repr (seconds / 60) ++ ":" ++ twoDigitField (seconds % 60)

/-! ## The job engine, modelled from the specification

The engine (JobStore, Dispatcher, Worker Pool, BatchCoordinator, StatusAPI)
is a server-side component whose sources are not in this repository; only the
polling client is. The definitions below are modelled from the specification's
data model (§3), component contracts (§4) and state machine (§4.5). -/

/-- Modelled from the spec: the Job `status` enum
{Pending, Processing, Completed, Failed, Cancelled}. -/
inductive JobStatus where
  | pending
  | processing
  | completed
  | failed
  | cancelled
deriving DecidableEq, Repr

/-- A status counts as terminal when it is Completed, Failed or Cancelled. -/
def JobStatus.isTerminal : JobStatus → Bool
  | .completed => true
  | .failed => true
  | .cancelled => true
  | _ => false

/-- A status counts as active when it is Pending or Processing. -/
def JobStatus.isActive : JobStatus → Bool
  | .pending => true
  | .processing => true
  | _ => false

/-- Modelled from the spec: a Job record (§3) with id, target document id,
status, progress (integer 0-100), message and cancellation flag. -/
structure EngJob where
  id : Nat
  targetId : Nat
  status : JobStatus
  progress : Int
  message : String
  cancelRequested : Bool
deriving DecidableEq, Repr

/-- Modelled from the spec: the JobStore's contents plus the dispatcher's
fresh-id counter; jobs are kept in creation order. -/
structure EngineState where
  jobs : List EngJob
  nextId : Nat
deriving DecidableEq, Repr

/-- Modelled from the spec: `findActiveByTarget(targetId) -> Job | None`
(§4.1): the first Pending/Processing job covering the target. -/
def findActiveByTarget (s : EngineState) (t : Nat) : Option EngJob :=
  s.jobs.find? (fun j => j.targetId == t && j.status.isActive)

/-- Modelled from the spec: `Dispatcher.submit` (§4.2): reject with
`AlreadyInProgress` (returning `none`) when an active job already covers the
target; otherwise create exactly one Pending job with progress 0 and a fresh
id, returning its id. -/
def submit (s : EngineState) (t : Nat) : EngineState × Option Nat :=
  match findActiveByTarget s t with
  | some _ => (s, none)
  | none =>
      ({ jobs := s.jobs ++
           [⟨s.nextId, t, JobStatus.pending, 0, "queued", false⟩],
         nextId := s.nextId + 1 }, some s.nextId)

/-- Pointwise job mutation applied under the store's exclusion: every job
whose id matches is replaced by `f` of it. -/
def updateJob (s : EngineState) (jid : Nat) (f : EngJob → EngJob) :
    EngineState :=
  { s with jobs := s.jobs.map (fun j => if j.id = jid then f j else j) }

/-- The per-job mutation of worker pickup: a Pending job whose cancellation
was requested before pickup goes to Cancelled; otherwise it transitions to
Processing. -/
def pickupFn (j : EngJob) : EngJob :=
  if j.status = JobStatus.pending then
    if j.cancelRequested then { j with status := JobStatus.cancelled }
    else { j with status := JobStatus.processing }
  else j

/-- Modelled from the spec: worker pickup (§4.3 and the state machine). -/
def pickup (s : EngineState) (jid : Nat) : EngineState :=
  updateJob s jid pickupFn

/-- The per-job mutation of a progress report: progress is 0-100 and
non-decreasing while Processing (§3), so a report is committed only for a
Processing job and only within those bounds. -/
def progressFn (p : Int) (msg : String) (j : EngJob) : EngJob :=
  if j.status = JobStatus.processing ∧ j.progress ≤ p ∧ p ≤ 100 then
    { j with progress := p, message := msg }
  else j

/-- Modelled from the spec: a progress increment written by the worker
(§4.3). -/
def reportProgress (s : EngineState) (jid : Nat) (p : Int) (msg : String) :
    EngineState :=
  updateJob s jid (progressFn p msg)

/-- The per-job mutation of normal completion: a Processing job transitions to
Completed with progress 100. -/
def completeFn (j : EngJob) : EngJob :=
  if j.status = JobStatus.processing then
    { j with status := JobStatus.completed, progress := 100 }
  else j

/-- Modelled from the spec: normal completion (§4.3). -/
def completeJob (s : EngineState) (jid : Nat) : EngineState :=
  updateJob s jid completeFn

/-- The per-job mutation of an unrecoverable error: a Processing job
transitions to Failed with the error summary as message. -/
def failFn (msg : String) (j : EngJob) : EngJob :=
  if j.status = JobStatus.processing then
    { j with status := JobStatus.failed, message := msg }
  else j

/-- Modelled from the spec: unrecoverable error (§4.3). -/
def failJob (s : EngineState) (jid : Nat) (msg : String) : EngineState :=
  updateJob s jid (failFn msg)

/-- The per-job mutation of a cancellation request: it only flips
`cancelRequested`, never forces a status transition directly (§5). -/
def cancelFlagFn (j : EngJob) : EngJob :=
  { j with cancelRequested := true }

/-- Modelled from the spec: a cancellation request (§5). -/
def requestCancel (s : EngineState) (jid : Nat) : EngineState :=
  updateJob s jid cancelFlagFn

/-- The per-job mutation of a worker observing `cancelRequested` at a
checkpoint: a Pending or Processing job with the flag set transitions to
Cancelled. -/
def observeFn (j : EngJob) : EngJob :=
  if j.cancelRequested ∧
      (j.status = JobStatus.pending ∨ j.status = JobStatus.processing) then
    { j with status := JobStatus.cancelled }
  else j

/-- Modelled from the spec: the worker observing `cancelRequested` at a
checkpoint (§4.3). -/
def observeCancel (s : EngineState) (jid : Nat) : EngineState :=
  updateJob s jid observeFn

/-- Modelled from the spec: `BatchCoordinator.reprocessAll` (§4.4): enumerate
the documents `(id, filename)`, submit Reanalyze for each, silently skip those
already covered by an active job, and return the created jobs as
`(job id, filename)` pairs in enumeration order. -/
def reprocessAll (s : EngineState) (docs : List (Nat × String)) :
    EngineState × List (Nat × String) :=
  match docs with
  | [] => (s, [])
  | d :: rest =>
      match submit s d.1 with
      | (s', some jid) =>
          let r := reprocessAll s' rest
          (r.1, (jid, d.2) :: r.2)
      | (s', none) => reprocessAll s' rest

/-- The engine operations named by the exclusivity claim: submission, worker
pickup, progress reporting, completion, failure, cancellation request,
cancellation observation and batch fan-out. -/
inductive EngineOp where
  | submit (targetId : Nat)
  | pickup (jobId : Nat)
  | reportProgress (jobId : Nat) (p : Int) (msg : String)
  | complete (jobId : Nat)
  | fail (jobId : Nat) (msg : String)
  | requestCancel (jobId : Nat)
  | observeCancel (jobId : Nat)
  | reprocessAll (docs : List (Nat × String))

/-- One engine step: the state after performing the given operation. -/
def engineStep (s : EngineState) : EngineOp → EngineState
  | .submit t => (submit s t).1
  | .pickup jid => pickup s jid
  | .reportProgress jid p msg => reportProgress s jid p msg
  | .complete jid => completeJob s jid
  | .fail jid msg => failJob s jid msg
  | .requestCancel jid => requestCancel s jid
  | .observeCancel jid => observeCancel s jid
  | .reprocessAll docs => (reprocessAll s docs).1

/-- The number of active (Pending/Processing) jobs covering a target. -/
def activeCount (s : EngineState) (t : Nat) : Nat :=
  s.jobs.countP (fun j => j.targetId == t && j.status.isActive)

/-- The exclusivity invariant (§3): at most one active job per target. -/
def Exclusive (s : EngineState) : Prop :=
  ∀ t, activeCount s t ≤ 1

/-- The progress bounds invariant (§3): every job's progress is an integer
between 0 and 100. -/
def ProgressInv (s : EngineState) : Prop :=
  ∀ j ∈ s.jobs, 0 ≤ j.progress ∧ j.progress ≤ 100

/-- The wire encoding of a job status as the JSON `status` string the client
compares against (`'pending'`, `'processing'`, `'completed'`, `'failed'`,
`'cancelled'`). -/
def JobStatus.toWire : JobStatus → String
  | .pending => "pending"
  | .processing => "processing"
  | .completed => "completed"
  | .failed => "failed"
  | .cancelled => "cancelled"

/-- The properties shared by every per-job mutation the engine applies:
it keeps the job's identity, never activates an inactive job, never leaves a
terminal status, and keeps progress within bounds and non-decreasing. -/
def StepFn (f : EngJob → EngJob) : Prop :=
  ∀ j : EngJob,
    (f j).id = j.id ∧
    (f j).targetId = j.targetId ∧
    ((f j).status.isActive = true → j.status.isActive = true) ∧
    (j.status.isTerminal = true → (f j).status = j.status) ∧
    (0 ≤ j.progress ∧ j.progress ≤ 100 →
      j.progress ≤ (f j).progress ∧ 0 ≤ (f j).progress ∧
        (f j).progress ≤ 100)

/-! ## Helper lemmas -/

theorem JobMap.erase_self (m : JobMap) (k : String) : m.erase k k = none := by
  simp [JobMap.erase]

theorem JobMap.erase_other (m : JobMap) (k x : String) (h : x ≠ k) :
    m.erase k x = m x := by
  simp [JobMap.erase, h]

theorem JobMap.insert_self (m : JobMap) (k : String) (v : TrackedJob) :
    m.insert k v k = some v := by
  simp [JobMap.insert]

theorem JobMap.insert_other (m : JobMap) (k x : String) (v : TrackedJob)
    (h : x ≠ k) : m.insert k v x = m x := by
  simp [JobMap.insert, h]

theorem jsPadStart_repr_lt60 :
    ∀ m, m < 60 → jsPadStart (Nat.repr m) 2 '0' = twoDigitField m := by
  decide

/-- C10: for every non-negative integer `s`, `formatTime s` is floor(s/60) in
decimal, a colon, and s mod 60 in decimal left-padded with '0' to two
characters; the seconds field always has exactly two digits and the minutes
field is exactly the unpadded decimal numeral. -/
theorem formatTime_eq_twoDigitSpec :
    ∀ s : Nat, formatTime s = formatTimeSpec s ∧
      (twoDigitField (s % 60)).length = 2 := by
  intro s
  constructor
  · unfold formatTime formatTimeSpec
    rw [jsPadStart_repr_lt60 (s % 60) (Nat.mod_lt s (by omega))]
  · rfl

/-- C2 counterexample: a snapshot with status `'processing'` (none of
completed/failed/cancelled/not_found) but progress 100 does not stay tracked:
the polling step evicts it. -/
theorem checkJobsStep_merge_clause_counterexample :
    ("processing" : String) ≠ "completed" ∧
    ("processing" : String) ≠ "failed" ∧
    ("processing" : String) ≠ "cancelled" ∧
    ("processing" : String) ≠ "not_found" ∧
    (checkJobsStep
      (JobMap.insert JobMap.empty "j1"
        ⟨"j1", "a.pdf", "processing", JSValue.num 90, "En cours"⟩)
      "j1" ⟨"processing", 100, "Finalisation"⟩).1 "j1" = none := by
  refine ⟨by decide, by decide, by decide, by decide, ?_⟩
  simp [checkJobsStep, JobMap.erase_self]

/-- C2 (amended): a `not_found` response evicts exactly that job from the
tracked map and refreshes the sources; a snapshot whose status is none of
completed/failed/cancelled/not_found and whose progress is not 100 stays
tracked with the snapshot merged in, without a refresh. -/
theorem checkJobsStep_eviction_and_merge :
    ∀ (m : JobMap) (jobId : String) (d : JobSnapshot),
      (d.status = "not_found" →
        (checkJobsStep m jobId d).1 jobId = none ∧
        (∀ k, k ≠ jobId → (checkJobsStep m jobId d).1 k = m k) ∧
        (checkJobsStep m jobId d).2 = true) ∧
      (d.status ≠ "completed" → d.status ≠ "failed" → d.status ≠ "cancelled" →
        d.status ≠ "not_found" → d.progress ≠ 100 →
        (checkJobsStep m jobId d).1 jobId =
          some (match m jobId with
                | some t => mergeSnapshot t d
                | none => snapshotOnly d) ∧
        (∀ k, k ≠ jobId → (checkJobsStep m jobId d).1 k = m k) ∧
        (checkJobsStep m jobId d).2 = false) := by
  intro m jobId d
  constructor
  · intro h
    have hcond : d.status = "completed" ∨ d.status = "failed" ∨
        d.status = "cancelled" ∨ d.status = "not_found" ∨ d.progress = 100 :=
      Or.inr (Or.inr (Or.inr (Or.inl h)))
    simp only [checkJobsStep]
    rw [if_pos hcond]
    exact ⟨JobMap.erase_self _ _, fun k hk => JobMap.erase_other _ _ _ hk, rfl⟩
  · intro h1 h2 h3 h4 h5
    have hcond : ¬(d.status = "completed" ∨ d.status = "failed" ∨
        d.status = "cancelled" ∨ d.status = "not_found" ∨ d.progress = 100) := by
      simp [h1, h2, h3, h4, h5]
    simp only [checkJobsStep]
    rw [if_neg hcond]
    exact ⟨JobMap.insert_self _ _ _,
           fun k hk => JobMap.insert_other _ _ _ _ hk, rfl⟩

theorem checkJobsStep_eviction_and_merge_witness :
    (checkJobsStep
      (JobMap.insert JobMap.empty "j1"
        ⟨"j1", "a.pdf", "processing", JSValue.num 40, "En cours"⟩)
      "j1" ⟨"not_found", 40, "?"⟩).1 "j1" = none ∧
    (checkJobsStep
      (JobMap.insert JobMap.empty "j1"
        ⟨"j1", "a.pdf", "processing", JSValue.num 40, "En cours"⟩)
      "j1" ⟨"processing", 55, "Analyse"⟩).1 "j1" =
      some (mergeSnapshot ⟨"j1", "a.pdf", "processing", JSValue.num 40, "En cours"⟩
        ⟨"processing", 55, "Analyse"⟩) := by
  constructor
  · exact ((checkJobsStep_eviction_and_merge _ "j1" _).1 rfl).1
  · have h := ((checkJobsStep_eviction_and_merge
      (JobMap.insert JobMap.empty "j1"
        ⟨"j1", "a.pdf", "processing", JSValue.num 40, "En cours"⟩)
      "j1" ⟨"processing", 55, "Analyse"⟩).2
      (by decide) (by decide) (by decide) (by decide) (by decide)).1
    simpa [JobMap.insert_self] using h

/-- C9: the polling step evicts a tracked job (and triggers a sources refresh)
whenever the fetched snapshot has progress 100, regardless of its status. -/
theorem checkJobsStep_progress100_evicts :
    ∀ (m : JobMap) (jobId : String) (d : JobSnapshot), d.progress = 100 →
      (checkJobsStep m jobId d).1 jobId = none ∧
      (checkJobsStep m jobId d).2 = true ∧
      ∀ k, k ≠ jobId → (checkJobsStep m jobId d).1 k = m k := by
  intro m jobId d h
  have hcond : d.status = "completed" ∨ d.status = "failed" ∨
      d.status = "cancelled" ∨ d.status = "not_found" ∨ d.progress = 100 :=
    Or.inr (Or.inr (Or.inr (Or.inr h)))
  simp only [checkJobsStep]
  rw [if_pos hcond]
  exact ⟨JobMap.erase_self _ _, rfl, fun k hk => JobMap.erase_other _ _ _ hk⟩

theorem checkJobsStep_progress100_evicts_witness :
    (checkJobsStep
      (JobMap.insert JobMap.empty "j2"
        ⟨"j2", "b.pdf", "pending", JSValue.num 0, "En attente..."⟩)
      "j2" ⟨"pending", 100, "Finalisation"⟩).1 "j2" = none :=
  (checkJobsStep_progress100_evicts _ "j2" ⟨"pending", 100, "Finalisation"⟩
    rfl).1

/-- C4: a `'duplicate'` upload response only collects the filename in the
duplicates report and installs no job entry; a response with a job id (and a
status other than `'duplicate'`) installs exactly one `'pending'` tracking
entry keyed by that id, leaving every other entry and the duplicates report
unchanged. -/
theorem handleUploadStep_disjoint :
    ∀ (jobs : JobMap) (dups : List String) (r : UploadResponse),
      (r.status = "duplicate" →
        handleUploadStep jobs dups r = (jobs, dups ++ [r.filename])) ∧
      (r.status ≠ "duplicate" → ∀ jid, r.job_id = some jid →
        (handleUploadStep jobs dups r).2 = dups ∧
        (handleUploadStep jobs dups r).1 jid =
          some ⟨jid, r.filename, "pending", JSValue.str "0/0",
            "En attente..."⟩ ∧
        ∀ k, k ≠ jid → (handleUploadStep jobs dups r).1 k = jobs k) := by
  intro jobs dups r
  constructor
  · intro h
    simp [handleUploadStep, h]
  · intro h jid hj
    have hu : handleUploadStep jobs dups r =
        (jobs.insert jid ⟨jid, r.filename, "pending", JSValue.str "0/0",
          "En attente..."⟩, dups) := by
      simp only [handleUploadStep, if_neg h, hj]
    rw [hu]
    exact ⟨rfl, JobMap.insert_self _ _ _,
           fun k hk => JobMap.insert_other _ _ _ _ hk⟩

theorem handleUploadStep_disjoint_witness :
    handleUploadStep JobMap.empty [] ⟨"duplicate", "a.pdf", none⟩ =
      (JobMap.empty, [] ++ ["a.pdf"]) ∧
    (handleUploadStep JobMap.empty [] ⟨"processing", "b.pdf", some "j9"⟩).1
        "j9" =
      some ⟨"j9", "b.pdf", "pending", JSValue.str "0/0", "En attente..."⟩ := by
  constructor
  · exact (handleUploadStep_disjoint JobMap.empty []
      ⟨"duplicate", "a.pdf", none⟩).1 rfl
  · exact ((handleUploadStep_disjoint JobMap.empty []
      ⟨"processing", "b.pdf", some "j9"⟩).2 (by decide) "j9" rfl).2.1

/-- C5: cancelling a job removes exactly that id from the tracked active-jobs
map at once — the update consults neither the server's reply nor the job's
status — and leaves every other tracked job unchanged. -/
theorem handleCancelJob_removes_only_target :
    ∀ (m : JobMap) (jobId : String),
      handleCancelJob m jobId jobId = none ∧
      ∀ k, k ≠ jobId → handleCancelJob m jobId k = m k := by
  intro m jobId
  exact ⟨JobMap.erase_self _ _, fun k hk => JobMap.erase_other _ _ _ hk⟩

theorem handleCancelJob_removes_only_target_witness :
    handleCancelJob
      (JobMap.insert
        (JobMap.insert JobMap.empty "a"
          ⟨"a", "a.pdf", "processing", JSValue.num 10, "En cours"⟩)
        "b" ⟨"b", "b.pdf", "pending", JSValue.num 0, "En attente..."⟩)
      "a" "a" = none ∧
    handleCancelJob
      (JobMap.insert
        (JobMap.insert JobMap.empty "a"
          ⟨"a", "a.pdf", "processing", JSValue.num 10, "En cours"⟩)
        "b" ⟨"b", "b.pdf", "pending", JSValue.num 0, "En attente..."⟩)
      "a" "b" =
      (JobMap.insert
        (JobMap.insert JobMap.empty "a"
          ⟨"a", "a.pdf", "processing", JSValue.num 10, "En cours"⟩)
        "b" ⟨"b", "b.pdf", "pending", JSValue.num 0, "En attente..."⟩) "b" := by
  constructor
  · exact (handleCancelJob_removes_only_target _ "a").1
  · exact (handleCancelJob_removes_only_target _ "a").2 "b" (by decide)

theorem stepFn_pickupFn : StepFn pickupFn := by
  intro j
  unfold pickupFn
  by_cases hp : j.status = JobStatus.pending
  · cases hcr : j.cancelRequested <;>
      simp_all [JobStatus.isActive, JobStatus.isTerminal] <;> omega
  · simp [hp]

theorem stepFn_progressFn (p : Int) (msg : String) :
    StepFn (progressFn p msg) := by
  intro j
  unfold progressFn
  by_cases hc : j.status = JobStatus.processing ∧ j.progress ≤ p ∧ p ≤ 100
  · obtain ⟨h1, h2, h3⟩ := hc
    simp_all [JobStatus.isActive, JobStatus.isTerminal] <;> omega
  · simp [hc]

theorem stepFn_completeFn : StepFn completeFn := by
  intro j
  unfold completeFn
  by_cases hp : j.status = JobStatus.processing
  · simp_all [JobStatus.isActive, JobStatus.isTerminal] <;> omega
  · simp [hp]

theorem stepFn_failFn (msg : String) : StepFn (failFn msg) := by
  intro j
  unfold failFn
  by_cases hp : j.status = JobStatus.processing
  · simp_all [JobStatus.isActive, JobStatus.isTerminal]
  · simp [hp]

theorem stepFn_cancelFlagFn : StepFn cancelFlagFn := by
  intro j
  simp [cancelFlagFn]

theorem stepFn_observeFn : StepFn observeFn := by
  intro j
  unfold observeFn
  by_cases hc : j.cancelRequested ∧
      (j.status = JobStatus.pending ∨ j.status = JobStatus.processing)
  · obtain ⟨h1, h2⟩ := hc
    rcases h2 with h2 | h2 <;>
      simp_all [JobStatus.isActive, JobStatus.isTerminal]
  · simp [hc]

theorem stepFn_guard (f : EngJob → EngJob) (hf : StepFn f) (jid : Nat) :
    StepFn (fun j => if j.id = jid then f j else j) := by
  intro j
  by_cases h : j.id = jid
  · simpa [h] using hf j
  · simp [h]

theorem updateJob_length (s : EngineState) (jid : Nat) (f : EngJob → EngJob) :
    (updateJob s jid f).jobs.length = s.jobs.length := by
  simp [updateJob]

theorem updateJob_get (s : EngineState) (jid : Nat) (f : EngJob → EngJob)
    (i : Nat) (h : i < s.jobs.length)
    (h' : i < (updateJob s jid f).jobs.length) :
    (updateJob s jid f).jobs.get ⟨i, h'⟩ =
      if (s.jobs.get ⟨i, h⟩).id = jid then f (s.jobs.get ⟨i, h⟩)
      else s.jobs.get ⟨i, h⟩ := by
  simp [updateJob, List.get_eq_getElem, List.getElem_map]

theorem submit_jobs_cases (s : EngineState) (t : Nat) :
    (submit s t).1.jobs = s.jobs ∨
    (submit s t).1.jobs = s.jobs ++
      [⟨s.nextId, t, JobStatus.pending, 0, "queued", false⟩] := by
  unfold submit
  cases h : findActiveByTarget s t <;> simp

theorem submit_length (s : EngineState) (t : Nat) :
    s.jobs.length ≤ (submit s t).1.jobs.length := by
  rcases submit_jobs_cases s t with h | h <;> simp [h]

theorem get_congr (l l' : List EngJob) (hll : l = l') (i : Nat)
    (hi : i < l.length) (hi' : i < l'.length) :
    l.get ⟨i, hi⟩ = l'.get ⟨i, hi'⟩ := by
  subst hll
  rfl

theorem submit_get (s : EngineState) (t : Nat) (i : Nat)
    (h : i < s.jobs.length) (h' : i < (submit s t).1.jobs.length) :
    (submit s t).1.jobs.get ⟨i, h'⟩ = s.jobs.get ⟨i, h⟩ := by
  rcases submit_jobs_cases s t with hc | hc
  · exact get_congr _ _ hc i h' h
  · rw [get_congr _ _ hc i h' (by simp only [List.length_append]; omega)]
    simp only [List.get_eq_getElem]
    exact List.getElem_append_left h

theorem submit_nextId (s : EngineState) (t : Nat) :
    s.nextId ≤ (submit s t).1.nextId := by
  unfold submit
  cases hf : findActiveByTarget s t <;> simp

theorem reprocessAll_length (docs : List (Nat × String)) :
    ∀ s : EngineState,
      s.jobs.length ≤ (reprocessAll s docs).1.jobs.length := by
  induction docs with
  | nil => intro s; simp [reprocessAll]
  | cons d rest ih =>
      intro s
      have hsub := submit_length s d.1
      rcases hr : submit s d.1 with ⟨s', r⟩
      rw [hr] at hsub
      cases r with
      | some jid =>
          simp only [reprocessAll, hr]
          exact le_trans hsub (ih s')
      | none =>
          simp only [reprocessAll, hr]
          exact le_trans hsub (ih s')

theorem reprocessAll_get (docs : List (Nat × String)) :
    ∀ (s : EngineState) (i : Nat) (h : i < s.jobs.length)
      (h' : i < (reprocessAll s docs).1.jobs.length),
      (reprocessAll s docs).1.jobs.get ⟨i, h'⟩ = s.jobs.get ⟨i, h⟩ := by
  induction docs with
  | nil => intro s i h h'; simp [reprocessAll]
  | cons d rest ih =>
      intro s i h h'
      have hsub := submit_length s d.1
      rcases hr : submit s d.1 with ⟨s', r⟩
      rw [hr] at hsub
      have hs' : i < s'.jobs.length := lt_of_lt_of_le h hsub
      have hget : s'.jobs.get ⟨i, hs'⟩ = s.jobs.get ⟨i, h⟩ := by
        have hg := submit_get s d.1 i h
        rw [hr] at hg
        exact hg _
      cases r with
      | some jid =>
          have hjobs : (reprocessAll s (d :: rest)).1.jobs =
              (reprocessAll s' rest).1.jobs := by
            rw [reprocessAll, hr]
          have h'' : i < (reprocessAll s' rest).1.jobs.length := by
            rw [← hjobs]; exact h'
          rw [get_congr _ _ hjobs i h' h'', ih s' i hs' h'', hget]
      | none =>
          have hjobs : (reprocessAll s (d :: rest)).1.jobs =
              (reprocessAll s' rest).1.jobs := by
            rw [reprocessAll, hr]
          have h'' : i < (reprocessAll s' rest).1.jobs.length := by
            rw [← hjobs]; exact h'
          rw [get_congr _ _ hjobs i h' h'', ih s' i hs' h'', hget]

theorem updateJob_jobs (s : EngineState) (jid : Nat) (f : EngJob → EngJob) :
    (updateJob s jid f).jobs =
      s.jobs.map (fun j => if j.id = jid then f j else j) := rfl

theorem updateJob_activeCount (s : EngineState) (jid : Nat)
    (f : EngJob → EngJob) (hf : StepFn f) (t : Nat) :
    activeCount (updateJob s jid f) t ≤ activeCount s t := by
  have hg := stepFn_guard f hf jid
  unfold activeCount
  rw [updateJob_jobs, List.countP_map]
  apply List.countP_mono_left
  intro x _ hpx
  obtain ⟨hid, htg, hact, hterm, hprog⟩ := hg x
  simp only [Function.comp_apply] at hpx
  rw [Bool.and_eq_true] at hpx ⊢
  obtain ⟨h1, h2⟩ := hpx
  exact ⟨by rwa [htg] at h1, hact h2⟩

theorem exclusive_submit (s : EngineState) (t : Nat) (hE : Exclusive s) :
    Exclusive (submit s t).1 := by
  intro u
  unfold submit
  cases hf : findActiveByTarget s t with
  | some j => exact hE u
  | none =>
      show List.countP (fun j => j.targetId == u && j.status.isActive)
        (s.jobs ++ [⟨s.nextId, t, JobStatus.pending, 0, "queued", false⟩]) ≤ 1
      rw [List.countP_append]
      by_cases hu : u = t
      · subst hu
        have hzero : s.jobs.countP
            (fun j => j.targetId == u && j.status.isActive) = 0 := by
          rw [List.countP_eq_zero]
          intro a ha
          exact (List.find?_eq_none.mp hf) a ha
        rw [hzero]
        simp [JobStatus.isActive]
      · have hone : List.countP (fun j => j.targetId == u && j.status.isActive)
            ([⟨s.nextId, t, JobStatus.pending, 0, "queued", false⟩] :
              List EngJob) = 0 := by
          simp [List.countP_cons]
          intro hc
          exact absurd hc.symm hu
        rw [hone]
        exact hE u

theorem exclusive_reprocessAll (docs : List (Nat × String)) :
    ∀ s : EngineState, Exclusive s → Exclusive (reprocessAll s docs).1 := by
  induction docs with
  | nil => intro s hE; simpa [reprocessAll] using hE
  | cons d rest ih =>
      intro s hE
      have hE' : Exclusive (submit s d.1).1 := exclusive_submit s d.1 hE
      rcases hr : submit s d.1 with ⟨s', r⟩
      rw [hr] at hE'
      cases r with
      | some jid =>
          have hred : (reprocessAll s (d :: rest)).1 =
              (reprocessAll s' rest).1 := by
            rw [reprocessAll, hr]
          rw [hred]
          exact ih s' hE'
      | none =>
          have hred : (reprocessAll s (d :: rest)).1 =
              (reprocessAll s' rest).1 := by
            rw [reprocessAll, hr]
          rw [hred]
          exact ih s' hE'

/-- C1: the exclusivity invariant — at most one Pending/Processing job per
target document — is preserved by every engine operation: submission, worker
pickup, progress reporting, completion, failure, cancellation request,
cancellation observation and batch fan-out. -/
theorem exclusivity_preserved (s : EngineState) (op : EngineOp)
    (hE : Exclusive s) : Exclusive (engineStep s op) := by
  cases op with
  | submit t => exact exclusive_submit s t hE
  | pickup jid =>
      exact fun t =>
        le_trans (updateJob_activeCount s jid _ stepFn_pickupFn t) (hE t)
  | reportProgress jid p msg =>
      exact fun t =>
        le_trans (updateJob_activeCount s jid _ (stepFn_progressFn p msg) t)
          (hE t)
  | complete jid =>
      exact fun t =>
        le_trans (updateJob_activeCount s jid _ stepFn_completeFn t) (hE t)
  | fail jid msg =>
      exact fun t =>
        le_trans (updateJob_activeCount s jid _ (stepFn_failFn msg) t) (hE t)
  | requestCancel jid =>
      exact fun t =>
        le_trans (updateJob_activeCount s jid _ stepFn_cancelFlagFn t) (hE t)
  | observeCancel jid =>
      exact fun t =>
        le_trans (updateJob_activeCount s jid _ stepFn_observeFn t) (hE t)
  | reprocessAll docs => exact exclusive_reprocessAll docs s hE

theorem exclusivity_preserved_witness :
    Exclusive ⟨[⟨0, 7, JobStatus.processing, 50, "x", false⟩], 1⟩ ∧
    Exclusive (engineStep ⟨[⟨0, 7, JobStatus.processing, 50, "x", false⟩], 1⟩
      (EngineOp.submit 7)) := by
  have hE : Exclusive ⟨[⟨0, 7, JobStatus.processing, 50, "x", false⟩], 1⟩ := by
    intro t
    simp only [activeCount, List.countP_cons, List.countP_nil]
    split <;> simp
  exact ⟨hE, exclusivity_preserved _ (EngineOp.submit 7) hE⟩

theorem stepFn_id : StepFn (fun j => j) := by
  intro j
  simp

theorem engineStep_length (s : EngineState) (op : EngineOp) :
    s.jobs.length ≤ (engineStep s op).jobs.length := by
  cases op with
  | submit t => exact submit_length s t
  | pickup jid => exact le_of_eq (updateJob_length s jid _).symm
  | reportProgress jid p msg => exact le_of_eq (updateJob_length s jid _).symm
  | complete jid => exact le_of_eq (updateJob_length s jid _).symm
  | fail jid msg => exact le_of_eq (updateJob_length s jid _).symm
  | requestCancel jid => exact le_of_eq (updateJob_length s jid _).symm
  | observeCancel jid => exact le_of_eq (updateJob_length s jid _).symm
  | reprocessAll docs => exact reprocessAll_length docs s

theorem engineStep_get_rel (s : EngineState) (op : EngineOp) (i : Nat)
    (h : i < s.jobs.length) (h' : i < (engineStep s op).jobs.length) :
    ∃ f : EngJob → EngJob, StepFn f ∧
      (engineStep s op).jobs.get ⟨i, h'⟩ = f (s.jobs.get ⟨i, h⟩) := by
  cases op with
  | submit t => exact ⟨fun j => j, stepFn_id, submit_get s t i h h'⟩
  | pickup jid =>
      exact ⟨fun j => if j.id = jid then pickupFn j else j,
        stepFn_guard _ stepFn_pickupFn jid, updateJob_get s jid _ i h h'⟩
  | reportProgress jid p msg =>
      exact ⟨fun j => if j.id = jid then progressFn p msg j else j,
        stepFn_guard _ (stepFn_progressFn p msg) jid,
        updateJob_get s jid _ i h h'⟩
  | complete jid =>
      exact ⟨fun j => if j.id = jid then completeFn j else j,
        stepFn_guard _ stepFn_completeFn jid, updateJob_get s jid _ i h h'⟩
  | fail jid msg =>
      exact ⟨fun j => if j.id = jid then failFn msg j else j,
        stepFn_guard _ (stepFn_failFn msg) jid, updateJob_get s jid _ i h h'⟩
  | requestCancel jid =>
      exact ⟨fun j => if j.id = jid then cancelFlagFn j else j,
        stepFn_guard _ stepFn_cancelFlagFn jid, updateJob_get s jid _ i h h'⟩
  | observeCancel jid =>
      exact ⟨fun j => if j.id = jid then observeFn j else j,
        stepFn_guard _ stepFn_observeFn jid, updateJob_get s jid _ i h h'⟩
  | reprocessAll docs =>
      exact ⟨fun j => j, stepFn_id, reprocessAll_get docs s i h h'⟩

theorem progressInv_updateJob (s : EngineState) (jid : Nat)
    (f : EngJob → EngJob) (hf : StepFn f) (hI : ProgressInv s) :
    ProgressInv (updateJob s jid f) := by
  intro j' hj'
  rw [updateJob_jobs] at hj'
  rcases List.mem_map.mp hj' with ⟨j, hj, rfl⟩
  by_cases hid : j.id = jid
  · simp only [hid, if_true]
    exact ((hf j).2.2.2.2 (hI j hj)).2
  · simp only [hid, if_false]
    exact hI j hj

theorem progressInv_submit (s : EngineState) (t : Nat) (hI : ProgressInv s) :
    ProgressInv (submit s t).1 := by
  intro j hj
  rcases submit_jobs_cases s t with hc | hc <;> rw [hc] at hj
  · exact hI j hj
  · rcases List.mem_append.mp hj with hj | hj
    · exact hI j hj
    · rw [List.mem_singleton] at hj
      subst hj
      exact ⟨le_refl 0, by norm_num⟩

theorem progressInv_reprocessAll (docs : List (Nat × String)) :
    ∀ s : EngineState, ProgressInv s → ProgressInv (reprocessAll s docs).1 := by
  induction docs with
  | nil => intro s hI; simpa [reprocessAll] using hI
  | cons d rest ih =>
      intro s hI
      have hI' : ProgressInv (submit s d.1).1 := progressInv_submit s d.1 hI
      rcases hr : submit s d.1 with ⟨s', r⟩
      rw [hr] at hI'
      cases r with
      | some jid =>
          have hred : (reprocessAll s (d :: rest)).1 =
              (reprocessAll s' rest).1 := by
            rw [reprocessAll, hr]
          rw [hred]
          exact ih s' hI'
      | none =>
          have hred : (reprocessAll s (d :: rest)).1 =
              (reprocessAll s' rest).1 := by
            rw [reprocessAll, hr]
          rw [hred]
          exact ih s' hI'

/-- C7: every job's progress is an integer between 0 and 100, this is
preserved by every engine operation, and no operation ever decreases a job's
progress — in particular the progress sequence observed over successive polls
is non-decreasing while the job is Processing, until a terminal status. -/
theorem progress_bounds_monotone (s : EngineState) (op : EngineOp)
    (hI : ProgressInv s) :
    ProgressInv (engineStep s op) ∧
    s.jobs.length ≤ (engineStep s op).jobs.length ∧
    ∀ (i : Nat) (h : i < s.jobs.length)
      (h' : i < (engineStep s op).jobs.length),
      (s.jobs.get ⟨i, h⟩).progress ≤
        ((engineStep s op).jobs.get ⟨i, h'⟩).progress := by
  refine ⟨?_, engineStep_length s op, ?_⟩
  · cases op with
    | submit t => exact progressInv_submit s t hI
    | pickup jid => exact progressInv_updateJob s jid _ stepFn_pickupFn hI
    | reportProgress jid p msg =>
        exact progressInv_updateJob s jid _ (stepFn_progressFn p msg) hI
    | complete jid => exact progressInv_updateJob s jid _ stepFn_completeFn hI
    | fail jid msg =>
        exact progressInv_updateJob s jid _ (stepFn_failFn msg) hI
    | requestCancel jid =>
        exact progressInv_updateJob s jid _ stepFn_cancelFlagFn hI
    | observeCancel jid =>
        exact progressInv_updateJob s jid _ stepFn_observeFn hI
    | reprocessAll docs => exact progressInv_reprocessAll docs s hI
  · intro i h h'
    obtain ⟨f, hf, heq⟩ := engineStep_get_rel s op i h h'
    rw [heq]
    exact ((hf _).2.2.2.2 (hI _ (List.get_mem s.jobs i h))).1

theorem progress_bounds_monotone_witness :
    ProgressInv (engineStep ⟨[⟨0, 3, JobStatus.processing, 40, "x", false⟩], 1⟩
      (EngineOp.reportProgress 0 70 "y")) ∧
    ((⟨[⟨0, 3, JobStatus.processing, 40, "x", false⟩], 1⟩ :
        EngineState).jobs.get ⟨0, by decide⟩).progress ≤
      ((engineStep ⟨[⟨0, 3, JobStatus.processing, 40, "x", false⟩], 1⟩
        (EngineOp.reportProgress 0 70 "y")).jobs.get ⟨0, by decide⟩).progress := by
  have hI : ProgressInv ⟨[⟨0, 3, JobStatus.processing, 40, "x", false⟩], 1⟩ := by
    intro j hj
    rw [List.mem_singleton] at hj
    subst hj
    exact ⟨by norm_num, by norm_num⟩
  obtain ⟨h1, _, h3⟩ := progress_bounds_monotone
    ⟨[⟨0, 3, JobStatus.processing, 40, "x", false⟩], 1⟩
    (EngineOp.reportProgress 0 70 "y") hI
  exact ⟨h1, h3 0 (by decide) (by decide)⟩

/-- C8: no engine step moves a job out of a terminal status, and the
generation-polling condition in `Revisions` is false exactly for the wire
encodings of the terminal statuses (completed, failed, cancelled), so the
client stops polling exactly when a terminal status is reached and, since
terminal statuses are frozen, never resumes for that job. -/
theorem terminal_frozen_polling_stops (s : EngineState) (op : EngineOp) :
    (∀ (i : Nat) (h : i < s.jobs.length)
      (h' : i < (engineStep s op).jobs.length),
      (s.jobs.get ⟨i, h⟩).status.isTerminal = true →
      ((engineStep s op).jobs.get ⟨i, h'⟩).status =
        (s.jobs.get ⟨i, h⟩).status) ∧
    (∀ (st : JobStatus) (p : Int) (msg : String),
      shouldPollGeneration (some ⟨st.toWire, p, msg⟩) = false ↔
        st.isTerminal = true) := by
  constructor
  · intro i h h' ht
    obtain ⟨f, hf, heq⟩ := engineStep_get_rel s op i h h'
    rw [heq]
    exact (hf _).2.2.2.1 ht
  · intro st p msg
    cases st <;>
      simp [shouldPollGeneration, JobStatus.toWire, JobStatus.isTerminal]

theorem terminal_frozen_polling_stops_witness :
    ((engineStep ⟨[⟨0, 3, JobStatus.cancelled, 40, "stop", true⟩], 1⟩
        (EngineOp.observeCancel 0)).jobs.get ⟨0, by decide⟩).status =
      JobStatus.cancelled ∧
    shouldPollGeneration (some ⟨JobStatus.cancelled.toWire, 40, "stop"⟩) =
      false := by
  constructor
  · have h := (terminal_frozen_polling_stops
      ⟨[⟨0, 3, JobStatus.cancelled, 40, "stop", true⟩], 1⟩
      (EngineOp.observeCancel 0)).1 0 (by decide) (by decide) (by decide)
    rw [h]
    rfl
  · exact (terminal_frozen_polling_stops
      ⟨[⟨0, 3, JobStatus.cancelled, 40, "stop", true⟩], 1⟩
      (EngineOp.observeCancel 0)).2 JobStatus.cancelled 40 "stop" |>.mpr rfl

theorem engineState_eq (a b : EngineState) (h1 : a.jobs = b.jobs)
    (h2 : a.nextId = b.nextId) : a = b := by
  cases a
  cases b
  cases h1
  cases h2
  rfl

/-- C6: requesting cancellation twice is the same engine state as requesting
it once, and a cancellation request never changes any job's status — in
particular a job already in a terminal status (Completed, Failed, Cancelled)
stays in it. -/
theorem requestCancel_idempotent (s : EngineState) (jid : Nat) :
    requestCancel (requestCancel s jid) jid = requestCancel s jid ∧
    ∀ (i : Nat) (h : i < s.jobs.length)
      (h' : i < (requestCancel s jid).jobs.length),
      ((requestCancel s jid).jobs.get ⟨i, h'⟩).status =
        (s.jobs.get ⟨i, h⟩).status := by
  constructor
  · apply engineState_eq
    · show (updateJob (updateJob s jid cancelFlagFn) jid cancelFlagFn).jobs =
        (updateJob s jid cancelFlagFn).jobs
      rw [updateJob_jobs (updateJob s jid cancelFlagFn) jid,
        updateJob_jobs s jid, List.map_map]
      apply List.map_congr_left
      intro a _
      by_cases h : a.id = jid
      · simp [Function.comp, h, cancelFlagFn]
      · simp [Function.comp, h]
    · rfl
  · intro i h h'
    show ((updateJob s jid cancelFlagFn).jobs.get ⟨i, h'⟩).status = _
    rw [updateJob_get s jid cancelFlagFn i h h']
    by_cases hid : (s.jobs.get ⟨i, h⟩).id = jid
    · rw [if_pos hid]
      rfl
    · rw [if_neg hid]

theorem requestCancel_idempotent_witness :
    requestCancel (requestCancel
      ⟨[⟨0, 3, JobStatus.completed, 100, "ok", false⟩], 1⟩ 0) 0 =
      requestCancel ⟨[⟨0, 3, JobStatus.completed, 100, "ok", false⟩], 1⟩ 0 ∧
    ((requestCancel ⟨[⟨0, 3, JobStatus.completed, 100, "ok", false⟩], 1⟩
        0).jobs.get ⟨0, by decide⟩).status = JobStatus.completed := by
  constructor
  · exact (requestCancel_idempotent
      ⟨[⟨0, 3, JobStatus.completed, 100, "ok", false⟩], 1⟩ 0).1
  · have h := (requestCancel_idempotent
      ⟨[⟨0, 3, JobStatus.completed, 100, "ok", false⟩], 1⟩ 0).2 0
      (by decide) (by decide)
    rw [h]
    rfl

theorem findActiveByTarget_submit_ne (s : EngineState) (t u : Nat)
    (hne : u ≠ t) :
    findActiveByTarget (submit s t).1 u = findActiveByTarget s u := by
  rcases submit_jobs_cases s t with hc | hc
  · unfold findActiveByTarget
    rw [hc]
  · unfold findActiveByTarget
    rw [hc, List.find?_append]
    have hnone : List.find? (fun j => j.targetId == u && j.status.isActive)
        ([⟨s.nextId, t, JobStatus.pending, 0, "queued", false⟩] :
          List EngJob) = none := by
      rw [List.find?_eq_none]
      intro x hx
      rw [List.mem_singleton] at hx
      subst hx
      simp
      intro hcontra
      exact absurd hcontra.symm hne
    rw [hnone, Option.or_none]

theorem reprocessAll_ids_ge (docs : List (Nat × String)) :
    ∀ s : EngineState, ∀ q ∈ (reprocessAll s docs).2, s.nextId ≤ q.1 := by
  induction docs with
  | nil => intro s q hq; simp [reprocessAll] at hq
  | cons d rest ih =>
      intro s q hq
      cases hf : findActiveByTarget s d.1 with
      | some j =>
          have hsub : submit s d.1 = (s, none) := by simp [submit, hf]
          rw [reprocessAll, hsub] at hq
          exact ih s q hq
      | none =>
          have hsub : submit s d.1 =
              (⟨s.jobs ++ [⟨s.nextId, d.1, JobStatus.pending, 0, "queued",
                false⟩], s.nextId + 1⟩, some s.nextId) := by
            simp [submit, hf]
          rw [reprocessAll, hsub] at hq
          rcases List.mem_cons.mp hq with hq | hq
          · subst hq; exact le_refl _
          · have := ih _ q hq
            simp only at this
            omega

theorem reprocessAll_ids_nodup (docs : List (Nat × String)) :
    ∀ s : EngineState, ((reprocessAll s docs).2.map Prod.fst).Nodup := by
  induction docs with
  | nil => intro s; simp [reprocessAll]
  | cons d rest ih =>
      intro s
      cases hf : findActiveByTarget s d.1 with
      | some j =>
          have hsub : submit s d.1 = (s, none) := by simp [submit, hf]
          rw [reprocessAll, hsub]
          exact ih s
      | none =>
          have hsub : submit s d.1 =
              (⟨s.jobs ++ [⟨s.nextId, d.1, JobStatus.pending, 0, "queued",
                false⟩], s.nextId + 1⟩, some s.nextId) := by
            simp [submit, hf]
          rw [reprocessAll, hsub]
          simp only [List.map_cons, List.nodup_cons]
          constructor
          · intro hmem
            rcases List.mem_map.mp hmem with ⟨q, hq, hq1⟩
            have := reprocessAll_ids_ge rest _ q hq
            simp only at this
            omega
          · exact ih _

theorem reprocessAll_count_and_order (docs : List (Nat × String)) :
    ∀ s : EngineState, (docs.map Prod.fst).Nodup →
      (reprocessAll s docs).2.map Prod.snd =
        (docs.filter (fun d => (findActiveByTarget s d.1).isNone)).map
          Prod.snd ∧
      (reprocessAll s docs).2.length =
        docs.length - docs.countP (fun d => (findActiveByTarget s d.1).isSome) := by
  induction docs with
  | nil => intro s _; simp [reprocessAll]
  | cons d rest ih =>
      intro s hnd
      rw [List.map_cons, List.nodup_cons] at hnd
      obtain ⟨hni, hnd'⟩ := hnd
      cases hf : findActiveByTarget s d.1 with
      | some j =>
          have hsub : submit s d.1 = (s, none) := by simp [submit, hf]
          have hred : reprocessAll s (d :: rest) = reprocessAll s rest := by
            rw [reprocessAll, hsub]
          rw [hred]
          obtain ⟨h1, h2⟩ := ih s hnd'
          constructor
          · rw [h1, List.filter_cons]
            simp [hf]
          · rw [h2, List.countP_cons]
            simp only [List.length_cons, hf, Option.isSome_some,
              if_pos]
            omega
      | none =>
          have hsub : submit s d.1 =
              (⟨s.jobs ++ [⟨s.nextId, d.1, JobStatus.pending, 0, "queued",
                false⟩], s.nextId + 1⟩, some s.nextId) := by
            simp [submit, hf]
          have hred : reprocessAll s (d :: rest) =
              ((reprocessAll (⟨s.jobs ++ [⟨s.nextId, d.1, JobStatus.pending,
                0, "queued", false⟩], s.nextId + 1⟩ : EngineState) rest).1,
               (s.nextId, d.2) ::
                 (reprocessAll (⟨s.jobs ++ [⟨s.nextId, d.1, JobStatus.pending,
                   0, "queued", false⟩], s.nextId + 1⟩ : EngineState)
                   rest).2) := by
            rw [reprocessAll, hsub]
          have hagree : ∀ e ∈ rest,
              findActiveByTarget (⟨s.jobs ++ [⟨s.nextId, d.1,
                JobStatus.pending, 0, "queued", false⟩], s.nextId + 1⟩ :
                EngineState) e.1 = findActiveByTarget s e.1 := by
            intro e he
            have hne : e.1 ≠ d.1 := by
              intro hcontra
              exact hni (hcontra ▸ List.mem_map_of_mem Prod.fst he)
            have hx := findActiveByTarget_submit_ne s d.1 e.1 hne
            rw [hsub] at hx
            exact hx
          obtain ⟨h1, h2⟩ := ih _ hnd'
          constructor
          · rw [hred]
            simp only [List.map_cons]
            rw [h1, List.filter_cons]
            simp only [hf, Option.isNone_none, if_pos, List.map_cons]
            congr 1
            congr 1
            apply List.filter_congr
            intro e he
            rw [hagree e he]
          · rw [hred]
            simp only [List.length_cons]
            rw [h2]
            have hcnt : rest.countP (fun e => (findActiveByTarget
                (⟨s.jobs ++ [⟨s.nextId, d.1, JobStatus.pending, 0, "queued",
                  false⟩], s.nextId + 1⟩ : EngineState) e.1).isSome) =
                rest.countP (fun e => (findActiveByTarget s e.1).isSome) :=
              List.countP_congr (fun e he => by rw [hagree e he])
            rw [hcnt, List.countP_cons]
            simp only [hf, Option.isSome_none, Bool.false_eq_true, if_false]
            have hle := List.countP_le_length
              (fun e => (findActiveByTarget s e.1).isSome) (l := rest)
            omega

theorem refreshFold_not_mem (resp : List (String × String)) :
    ∀ (acc : JobMap) (k : String), k ∉ resp.map Prod.fst →
      (resp.foldl
        (fun acc p => JobMap.insert acc p.1
          ⟨p.1, p.2, "pending", JSValue.num 0, "Actualisation démarrée..."⟩)
        acc) k = acc k := by
  induction resp with
  | nil => intro acc k _; rfl
  | cons q rest ih =>
      intro acc k hk
      rw [List.map_cons, List.mem_cons] at hk
      push_neg at hk
      obtain ⟨hk1, hk2⟩ := hk
      rw [List.foldl_cons, ih _ k hk2]
      exact JobMap.insert_other acc q.1 k _ hk1

theorem refreshFold_mem (resp : List (String × String)) :
    ∀ (acc : JobMap), (resp.map Prod.fst).Nodup → ∀ q ∈ resp,
      (resp.foldl
        (fun acc p => JobMap.insert acc p.1
          ⟨p.1, p.2, "pending", JSValue.num 0, "Actualisation démarrée..."⟩)
        acc) q.1 =
        some ⟨q.1, q.2, "pending", JSValue.num 0,
          "Actualisation démarrée..."⟩ := by
  induction resp with
  | nil => intro acc _ q hq; simp at hq
  | cons r rest ih =>
      intro acc hnd q hq
      rw [List.map_cons, List.nodup_cons] at hnd
      obtain ⟨hni, hnd'⟩ := hnd
      rw [List.foldl_cons]
      rcases List.mem_cons.mp hq with hq | hq
      · subst hq
        rw [refreshFold_not_mem rest _ q.1 hni]
        exact JobMap.insert_self acc q.1 _
      · exact ih _ hnd' q hq

/-- C3: `reprocessAll` over `k` documents of which `m` already have an active
job creates exactly `k − m` jobs, returned as `(job id, filename)` pairs in
enumeration order with distinct ids; and for every response list the client
installs exactly one tracking entry per returned job — keyed by its job id,
status `'pending'`, progress `0` — and no entry for any other id, leaving
entries of other ids as before. -/
theorem reprocessAll_fanout_and_tracking (s : EngineState)
    (docs : List (Nat × String)) (prev : JobMap)
    (resp : List (String × String))
    (hdocs : (docs.map Prod.fst).Nodup)
    (hresp : (resp.map Prod.fst).Nodup) :
    ((reprocessAll s docs).2.length =
        docs.length -
          docs.countP (fun d => (findActiveByTarget s d.1).isSome) ∧
      (reprocessAll s docs).2.map Prod.snd =
        (docs.filter (fun d => (findActiveByTarget s d.1).isNone)).map
          Prod.snd ∧
      ((reprocessAll s docs).2.map Prod.fst).Nodup) ∧
    ((∀ q ∈ resp, handleRefreshAllInstall prev resp q.1 =
        some ⟨q.1, q.2, "pending", JSValue.num 0,
          "Actualisation démarrée..."⟩) ∧
      ∀ k, k ∉ resp.map Prod.fst →
        refreshAllNewJobs resp k = none ∧
        handleRefreshAllInstall prev resp k = prev k) := by
  obtain ⟨h1, h2⟩ := reprocessAll_count_and_order docs s hdocs
  refine ⟨⟨h2, h1, reprocessAll_ids_nodup docs s⟩, ?_, ?_⟩
  · intro q hq
    have hnew : refreshAllNewJobs resp q.1 =
        some ⟨q.1, q.2, "pending", JSValue.num 0,
          "Actualisation démarrée..."⟩ :=
      refreshFold_mem resp JobMap.empty hresp q hq
    unfold handleRefreshAllInstall
    rw [hnew]
  · intro k hk
    have hnew : refreshAllNewJobs resp k = none :=
      refreshFold_not_mem resp JobMap.empty k hk
    refine ⟨hnew, ?_⟩
    unfold handleRefreshAllInstall
    rw [hnew]

theorem reprocessAll_fanout_and_tracking_witness :
    (reprocessAll ⟨[⟨0, 1, JobStatus.processing, 10, "x", false⟩], 1⟩
      [(1, "a.pdf"), (2, "b.pdf")]).2.length = 1 ∧
    handleRefreshAllInstall JobMap.empty [("j5", "b.pdf")] "j5" =
      some ⟨"j5", "b.pdf", "pending", JSValue.num 0,
        "Actualisation démarrée..."⟩ := by
  have h := reprocessAll_fanout_and_tracking
    ⟨[⟨0, 1, JobStatus.processing, 10, "x", false⟩], 1⟩
    [(1, "a.pdf"), (2, "b.pdf")] JobMap.empty [("j5", "b.pdf")]
    (by decide) (by decide)
  constructor
  · rw [h.1.1]
    decide
  · exact h.2.1 ("j5", "b.pdf") (List.mem_singleton.mpr rfl)
